import Mathlib

/-!
# Verification of the metrics configuration resolution engine

Shallow embedding of `source/metrics/engine/config.ts`: the JavaScript value
model (objects as insertion-ordered association lists), the deep-merge used by
the cascade resolver (Deno std `deepMerge` with `arrays: "replace"`), the
syntaxic-sugar normalizer, and executable models of the Zod schemas
(`_preset_plugin`, `plugin`, `plugin_nop`, `processor`, `preset`, `config`,
`webrequest`, the `secret` transform).

Objects are modelled as insertion-ordered association lists (`JFields`);
JavaScript `undefined` is `JVal.undef`, and a `Secret` instance is the opaque
wrapper `JVal.secret`. Numbers are modelled as integers (every numeric value
appearing in the configuration defaults and validators is integral).
-/

namespace Metrics

mutual

/-- A JavaScript value as produced by the YAML loader / schema pipeline. -/
inductive JVal where
  | null
  | undef
  | bool (b : Bool)
  | num (n : Int)
  | str (s : String)
  | arr (elems : JList)
  | obj (fields : JFields)
  | secret (val : JVal)

/-- A list of JavaScript values (array elements). -/
inductive JList where
  | nil
  | cons (head : JVal) (tail : JList)

/-- Insertion-ordered fields of a JavaScript object. -/
inductive JFields where
  | nil
  | cons (key : String) (val : JVal) (tail : JFields)

end

namespace JList

/-- Convert to a Lean list. -/
def toList : JList → List JVal
  | .nil => []
  | .cons x xs => x :: toList xs

/-- Build from a Lean list. -/
def ofList : List JVal → JList
  | [] => .nil
  | x :: xs => .cons x (ofList xs)

/-- Length of the array. -/
def length : JList → Nat
  | .nil => 0
  | .cons _ xs => xs.length + 1

end JList

namespace JFields

/-- First binding for key `k` (`record[k]` when the key is present). -/
def lookup (k : String) : JFields → Option JVal
  | .nil => none
  | .cons k' v rest => if k' = k then some v else lookup k rest

/-- Whether the object has the key (`k in record`). -/
def hasKey (k : String) (f : JFields) : Bool :=
  (f.lookup k).isSome

/-- Keys in insertion order (`Object.keys(record)`). -/
def keys : JFields → List String
  | .nil => []
  | .cons k _ rest => k :: keys rest

/-- Concatenation of two field lists. -/
def append : JFields → JFields → JFields
  | .nil, g => g
  | .cons k v rest, g => .cons k v (append rest g)

/-- Remove a key (`delete record[k]`). -/
def erase (k : String) : JFields → JFields
  | .nil => .nil
  | .cons k' v rest => if k' = k then erase k rest else .cons k' v (erase k rest)

/-- Set a key: overwrite in place if present, append otherwise
(one step of `Object.assign`). -/
def setKey : JFields → String → JVal → JFields
  | .nil, k, v => .cons k v .nil
  | .cons k' v' rest, k, v =>
      if k' = k then .cons k' v rest else .cons k' v' (setKey rest k v)

/-- Model of `Object.assign(target, extra)`: overwrite existing keys in place,
append new ones in the order they appear in `extra`. -/
def objAssign (target : JFields) : JFields → JFields
  | .nil => target
  | .cons k v rest => objAssign (target.setKey k v) rest

/-- Keep only bindings whose key is not in `ks`. -/
def dropKeys (ks : List String) : JFields → JFields
  | .nil => .nil
  | .cons k v rest =>
      if ks.contains k then dropKeys ks rest else .cons k v (dropKeys ks rest)

/-- Keep only bindings whose key is in `ks`. -/
def keepKeys (ks : List String) : JFields → JFields
  | .nil => .nil
  | .cons k v rest =>
      if ks.contains k then .cons k v (keepKeys ks rest) else keepKeys ks rest

/-- Build from a Lean list of pairs. -/
def ofList : List (String × JVal) → JFields
  | [] => .nil
  | (k, v) :: rest => .cons k v (ofList rest)

end JFields

/-- Object literal helper. -/
def jobj (l : List (String × JVal)) : JVal := .obj (JFields.ofList l)

/-- Array literal helper. -/
def jarr (l : List JVal) : JVal := .arr (JList.ofList l)

mutual

/-- JavaScript `String(value)` coercion, as used by `is.coerce.string()` and by
property-key conversion. The textual form of a `Secret` is modelled from the
spec: the default textual form of a Secret is a fixed redacted placeholder, never the
raw value (the `Secret` class itself lives outside the verified sources). -/
def jsToString : JVal → String
  | .null => "null"
  | .undef => "undefined"
  | .bool true => "true"
  | .bool false => "false"
  | .num n => toString n
  | .str s => s
  | .arr xs => jsListToString xs
  | .obj _ => "[object Object]"
  | .secret _ => "[secret]"

/-- Model of `Array.prototype.toString`: elements joined by `","`, with `null` and
`undefined` elements rendered as the empty string. -/
def jsListToString : JList → String
  | .nil => ""
  | .cons x .nil =>
      match x with
      | .null => ""
      | .undef => ""
      | x => jsToString x
  | .cons x rest =>
      (match x with
       | .null => ""
       | .undef => ""
       | x => jsToString x) ++ "," ++ jsListToString rest

end

/-- JavaScript property access `value[k]` restricted to the shapes reachable
here: an absent key, or access on a non-object, yields `undefined` (the
optional-chaining `?.` in the source short-circuits the nullish cases). -/
def jsGet (v : JVal) (k : String) : JVal :=
  match v with
  | .obj f => (f.lookup k).getD JVal.undef
  | _ => JVal.undef

/-- The own enumerable keys view used by `deepMerge` at each layer
(`other ?? {}` followed by key enumeration): plain objects contribute their
fields, any other value contributes none. (Strings and arrays would contribute
index keys in JavaScript; no layer of the cascade is ever a string, and an
array layer reaching the top level of `deepMerge` does not occur in the calls
made by the source, whose layers are the `plugins`/`processors` records of
preset bundles or
plugin/processor records.) -/
def recordFieldsOf : JVal → JFields
  | .obj f => f
  | _ => .nil

mutual

/-- Merge of two values inside `deepMerge`: plain objects merge key by key,
everything else (arrays included, because of `{ arrays: "replace" }`) is
replaced by the right-hand value. -/
def mergeVal : JVal → JVal → JVal
  | .obj a, .obj b => .obj ((mergeInto a b).append (b.dropKeys a.keys))
  | _, b => b
  termination_by structural v => v

/-- The bindings of `a`, each merged with the binding of `b` when `b` has the
key (the shared-key half of `deepMergeInternal record other`). -/
def mergeInto : JFields → JFields → JFields
  | .nil, _ => .nil
  | .cons k v rest, b =>
      match b.lookup k with
      | some w => .cons k (mergeVal v w) (mergeInto rest b)
      | none => .cons k v (mergeInto rest b)
  termination_by structural f => f

end

/-- Model of `deepMergeInternal record other`: keys of `record` (merged with
the value in `other` when the key is shared), followed by the remaining keys
of `other`. -/
def mergeFields (a b : JFields) : JFields :=
  (mergeInto a b).append (b.dropKeys a.keys)

/-- Model of `merge(...objects)` from `config.ts`: fold `deepMerge` (with
`arrays: "replace"`) over the layers, starting from `{}`, treating nullish
layers as `{}`. -/
def mergeList (layers : List JVal) : JFields :=
  layers.foldl (fun acc o => mergeFields acc (recordFieldsOf o)) .nil

/-- Keys of `filterKeys(record, (key) => !keys.includes(key))`, in insertion
order: the keys of the record that are not in the recognized set. -/
def unrecognizedKeys (f : JFields) (keys : List String) : List String :=
  f.keys.filter (fun k => !keys.contains k)

/-- The `record.args && typeof record.args === "object" &&
Object.keys(record.args).length` guard of `sugar`: a truthy object value with
at least one enumerable key. -/
def argsGuard : Option JVal → Bool
  | some (.obj (.cons _ _ _)) => true
  | some (.arr (.cons _ _)) => true
  | _ => false

/-- The spreadable-object view `{...value}` taken by `sugar`: `null`,
`undefined` and primitives are not objects (the function returns them
unchanged); arrays spread to index-keyed records; a `Secret` instance spreads
to a record with no enumerable own keys (its storage is opaque). -/
def spreadFields : JVal → Option JFields
  | .obj f => some f
  | .arr xs => some (go 0 xs)
  | .secret _ => some .nil
  | _ => none
where
  go : Nat → JList → JFields
  | _, .nil => .nil
  | i, .cons x xs => .cons (toString i) x (go (i + 1) xs)

/-- Model of `sugar(value, keys)` from `config.ts`: rewrite a terse single-key
declaration into canonical `{id, args}` form. -/
def sugar (v : JVal) (keys : List String) : JVal :=
  match spreadFields v with
  | none => v
  | some f =>
    if f.hasKey "id" then v
    else if argsGuard (f.lookup "args") then v
    else
      match unrecognizedKeys f keys with
      | [] =>
          -- `const [id, ...extras] = []` leaves `id` undefined; `record[id]`
          -- and `delete record[id]` then use the property key "undefined".
          let args := (f.lookup "undefined").getD .undef
          .obj ((f.erase "undefined").objAssign
            (.cons "id" .undef (.cons "args" args .nil)))
      | id :: extras =>
          if extras.isEmpty then
            let args := (f.lookup id).getD .undef
            .obj ((f.erase id).objAssign
              (.cons "id" (.str id) (.cons "args" args .nil)))
          else
            .obj (.cons "id" (.str "") f)

/-! ## Environment and leaf validators -/

/-- Environment-sourced inputs consulted when defaults are synthesized. -/
structure Env where
  /-- The value of `env.get("METRICS_GITHUB_TOKEN")`: a string, or `undefined`. -/
  token : JVal
  /-- The host timezone `Intl.DateTimeFormat().resolvedOptions().timeZone`. -/
  timezone : String
  /-- The zone list `Intl.supportedValuesOf("timeZone")`. -/
  timezones : List String

/-- The log level enumeration. -/
def loglevels : List String :=
  ["none", "error", "warn", "info", "message", "debug", "trace"]

/-- The entity enumeration. -/
def entities : List String := ["user", "organization", "repository"]

/-- Model of `is.enum(vals)`. -/
def parseEnum (vals : List String) : JVal → Except String JVal
  | .str s => if vals.contains s then .ok (.str s) else .error "invalid enum value"
  | _ => .error "expected string"

/-- Model of `is.string().min(1)`. -/
def parseString1 : JVal → Except String JVal
  | .str s => if s.length == 0 then .error "expected non-empty string" else .ok (.str s)
  | _ => .error "expected string"

/-- Model of `is.string()`. -/
def parseStringAny : JVal → Except String JVal
  | .str s => .ok (.str s)
  | _ => .error "expected string"

/-- Model of `is.boolean()`. -/
def parseBool : JVal → Except String JVal
  | .bool b => .ok (.bool b)
  | _ => .error "expected boolean"

/-- Model of `is.number().int().positive()` (numbers are modelled as integers,
so `.int()` is automatic). -/
def parseIntPositive : JVal → Except String JVal
  | .num n => if 0 < n then .ok (.num n) else .error "expected positive number"
  | _ => .error "expected number"

/-- Model of `is.number().min(0)`. -/
def parseNumMin0 : JVal → Except String JVal
  | .num n => if 0 ≤ n then .ok (.num n) else .error "expected non-negative number"
  | _ => .error "expected number"

/-- Model of `is.record(is.string(), is.unknown())`: any plain object. -/
def parseArgs : JVal → Except String JVal
  | .obj f => .ok (.obj f)
  | _ => .error "expected object"

/-- Scan for the scheme separator: a URL is a non-empty scheme, then `://`,
then a non-empty remainder (the flag records whether the scheme part seen so
far is non-empty). -/
def isUrlChars : Bool → List Char → Bool
  | pre, ':' :: '/' :: '/' :: rest => pre && !rest.isEmpty
  | _, _ :: cs => isUrlChars true cs
  | _, [] => false

/-- Modelled from the spec: URL validity as checked by `is.string().url()`
(the check itself lives in the external validation library); a URL here is a
non-empty scheme, the separator, and a non-empty remainder. -/
def isUrl (s : String) : Bool := isUrlChars false s.toList

/-- Model of `is.string().url()`. -/
def parseUrl : JVal → Except String JVal
  | .str s => if isUrl s then .ok (.str s) else .error "expected URL"
  | _ => .error "expected string"

/-- Model of the timezone field: `is.string().min(1).refine((value) =>
timezones.includes(value))`. -/
def parseTimezone (env : Env) : JVal → Except String JVal
  | .str s =>
      if s.length == 0 then .error "expected non-empty string"
      else if env.timezones.contains s then .ok (.str s)
      else .error "invalid timezone"
  | _ => .error "expected string"

/-- Model of the handle field `is.coerce.string().min(1).nullable()`:
`null` passes through, anything else is coerced with `String(...)` first. -/
def parseHandle : JVal → Except String JVal
  | .null => .ok .null
  | v =>
      let s := jsToString v
      if s.length == 0 then .error "expected non-empty string" else .ok (.str s)

/-- Model of the template field `is.union([is.literal(null),
is.coerce.string().url(), is.coerce.string().min(1)])`: the first matching
branch wins. -/
def parseTemplate : JVal → Except String JVal
  | .null => .ok .null
  | v =>
      let s := jsToString v
      if isUrl s then .ok (.str s)
      else if s.length == 0 then .error "expected URL or non-empty string"
      else .ok (.str s)

/-- Model of the `secret` schema `is.union([is.unknown(),
is.instanceof(Secret)]).transform(...)`: wrap unless already wrapped. It never
fails (the `is.unknown()` branch accepts anything). -/
def secretParse : JVal → JVal
  | .secret v => .secret v
  | v => .secret v

/-! ## Zod object-parsing helpers -/

/-- The value a Zod object parser validates for a field: a present `undefined`
value behaves like an absent key. -/
def fieldVal (f : JFields) (k : String) : Option JVal :=
  match f.lookup k with
  | some .undef => none
  | o => o

/-- Collapse a present `undefined` into absence (for optional fields). -/
def optUndef : Option JVal → Option JVal
  | some .undef => none
  | o => o

/-- Parse an optional field: absent stays absent, present is validated. -/
def optField (p : JVal → Except String JVal) : Option JVal → Except String (Option JVal)
  | none => .ok none
  | some v => (p v).map some

/-- Parse a required field: absent (or `undefined`) fails. -/
def reqField (f : JFields) (k : String) (p : JVal → Except String JVal) :
    Except String JVal :=
  match fieldVal f k with
  | none => .error (k ++ ": required")
  | some v => p v

/-- Prepend a field when present (optional fields are omitted from output). -/
def consOpt (k : String) (o : Option JVal) (rest : JFields) : JFields :=
  match o with
  | some v => .cons k v rest
  | none => rest

/-- Monadic map over an array of values. -/
def exceptMapJList (p : JVal → Except String JVal) : JList → Except String JList
  | .nil => .ok .nil
  | .cons x xs => do
      let y ← p x
      let ys ← exceptMapJList p xs
      .ok (.cons y ys)

/-- Monadic map over a Lean list. -/
def exceptMapList (p : α → Except String β) : List α → Except String (List β)
  | [] => .ok []
  | x :: xs => do
      let y ← p x
      let ys ← exceptMapList p xs
      .ok (y :: ys)

/-! ## Component schemas -/

/-- Model of the retry-policy object with per-field defaults, as it appears in
`_preset_plugin` / `_preset_processor` (strip mode). -/
def parseRetriesDefaults (attemptsD delayD : Int) : JVal → Except String JVal
  | .obj f => do
      let a ← match fieldVal f "attempts" with
        | none => parseIntPositive (.num attemptsD)
        | some v => parseIntPositive v
      let d ← match fieldVal f "delay" with
        | none => parseNumMin0 (.num delayD)
        | some v => parseNumMin0 v
      .ok (jobj [("attempts", a), ("delay", d)])
  | _ => .error "retries: expected object"

/-- Model of the retry-policy object of `component` (both fields required,
strip mode). -/
def parseRetriesRequired : JVal → Except String JVal
  | .obj f => do
      let a ← reqField f "attempts" parseIntPositive
      let d ← reqField f "delay" parseNumMin0
      .ok (jobj [("attempts", a), ("delay", d)])
  | _ => .error "retries: expected object"

/-- Model of the retry-policy object after `deepPartial` (both fields
optional, strip mode). -/
def parseRetriesPartial : JVal → Except String JVal
  | .obj f => do
      let a ← optField parseIntPositive (fieldVal f "attempts")
      let d ← optField parseNumMin0 (fieldVal f "delay")
      .ok (.obj (consOpt "attempts" a (consOpt "delay" d .nil)))
  | _ => .error "retries: expected object"

/-- Model of `_preset_processor.parse` (strip mode): `args`, `logs`, `fatal`
and `retries`, each with the processor-level default. -/
def presetProcessorParse : JVal → Except String JFields
  | .obj f => do
      let args ← match fieldVal f "args" with
        | none => parseArgs (jobj [])
        | some v => parseArgs v
      let logs ← match fieldVal f "logs" with
        | none => parseEnum loglevels (.str "trace")
        | some v => parseEnum loglevels v
      let fatal ← match fieldVal f "fatal" with
        | none => parseBool (.bool false)
        | some v => parseBool v
      let retries ← match fieldVal f "retries" with
        | none => parseRetriesDefaults 1 120 (jobj [])
        | some v => parseRetriesDefaults 1 120 v
      .ok (JFields.ofList
        [("args", args), ("logs", logs), ("fatal", fatal), ("retries", retries)])
  | _ => .error "expected object"

/-- The value of `_processor_keys`: the keys of `_preset_processor.parse({})`,
in shape order. -/
def processorKeys : List String := ["args", "logs", "fatal", "retries"]

/-- Model of `_processor_without_parent.deepPartial().parse` (strip mode):
every field optional, nested retries partial as well. -/
def processorDeepPartialParse : JVal → Except String JVal
  | .obj f => do
      let logs ← optField (parseEnum loglevels) (fieldVal f "logs")
      let id ← optField parseString1 (fieldVal f "id")
      let args ← optField parseArgs (fieldVal f "args")
      let retries ← optField parseRetriesPartial (fieldVal f "retries")
      let fatal ← optField parseBool (fieldVal f "fatal")
      .ok (.obj (consOpt "logs" logs (consOpt "id" id (consOpt "args" args
        (consOpt "retries" retries (consOpt "fatal" fatal .nil))))))
  | _ => .error "expected object"

/-- Model of `_processor_without_parent.strict().parse`: the full component
shape (`logs`, `id`, `args`, `retries`, `fatal`), rejecting unknown keys. -/
def componentStrictParse (f : JFields) : Except String JVal :=
  if !(f.keys.all (fun k => ["logs", "id", "args", "retries", "fatal"].contains k)) then
    .error "unrecognized keys"
  else do
    let logs ← reqField f "logs" (parseEnum loglevels)
    let id ← reqField f "id" parseString1
    let args ← reqField f "args" parseArgs
    let retries ← reqField f "retries" parseRetriesRequired
    let fatal ← reqField f "fatal" parseBool
    .ok (jobj [("logs", logs), ("id", id), ("args", args), ("retries", retries),
      ("fatal", fatal)])

/-- Model of the `processor` schema: the preprocess applies `sugar` and
`_preset_processor.passthrough().parse` (whose failure, a thrown error, fails
the whole parse), then `_processor_without_parent.strict()` validates. -/
def processorParse (v : JVal) : Except String JVal :=
  match sugar v processorKeys with
  | .obj f => do
      let core ← presetProcessorParse (.obj f)
      componentStrictParse (core.append (f.dropKeys processorKeys))
  | _ => .error "expected object"

/-- The value of `_plugin_keys`: the keys of `_preset_plugin.parse({})`, in
shape order. -/
def pluginKeys : List String :=
  ["args", "logs", "api", "token", "handle", "entity", "template", "timezone",
   "mock", "processors", "fatal", "retries"]

/-- Model of `_preset_plugin.parse` (strip mode): the plugin-level defaulted
bundle shape, with every default from the source (`api` endpoint, token from
the environment, host timezone, `entity "user"`, `template "classic"`, retry
policy 3/120, and so on). -/
def presetPluginParse (env : Env) : JVal → Except String JFields
  | .obj f => do
      let args ← match fieldVal f "args" with
        | none => parseArgs (jobj [])
        | some v => parseArgs v
      let logs ← match fieldVal f "logs" with
        | none => parseEnum loglevels (.str "trace")
        | some v => parseEnum loglevels v
      let api ← match fieldVal f "api" with
        | none => parseUrl (.str "https://api.github.com")
        | some v => parseUrl v
      let token := secretParse ((fieldVal f "token").getD env.token)
      let handle ← match fieldVal f "handle" with
        | none => parseHandle .null
        | some v => parseHandle v
      let entity ← match fieldVal f "entity" with
        | none => parseEnum entities (.str "user")
        | some v => parseEnum entities v
      let template ← match fieldVal f "template" with
        | none => parseTemplate (.str "classic")
        | some v => parseTemplate v
      let timezone ← match fieldVal f "timezone" with
        | none => parseTimezone env (.str env.timezone)
        | some v => parseTimezone env v
      let mock ← match fieldVal f "mock" with
        | none => parseBool (.bool false)
        | some v => parseBool v
      let processors ← match fieldVal f "processors" with
        | none => .ok (jarr [])
        | some (.arr xs) => (exceptMapJList processorDeepPartialParse xs).map JVal.arr
        | some _ => .error "processors: expected array"
      let fatal ← match fieldVal f "fatal" with
        | none => parseBool (.bool false)
        | some v => parseBool v
      let retries ← match fieldVal f "retries" with
        | none => parseRetriesDefaults 3 120 (jobj [])
        | some v => parseRetriesDefaults 3 120 v
      .ok (JFields.ofList
        [("args", args), ("logs", logs), ("api", api), ("token", token),
         ("handle", handle), ("entity", entity), ("template", template),
         ("timezone", timezone), ("mock", mock), ("processors", processors),
         ("fatal", fatal), ("retries", retries)])
  | _ => .error "expected object"

/-- Model of `_preset_plugin.extend({ id, preset }).strict().safeParse`, the
body of the `plugin` preprocess. -/
def pluginPreStrictParse (env : Env) (f : JFields) : Except String JFields :=
  if !(f.keys.all (fun k => (pluginKeys ++ ["id", "preset"]).contains k)) then
    .error "unrecognized keys"
  else do
    let core ← presetPluginParse env (.obj f)
    let id ← reqField f "id" parseString1
    let preset ← optField parseStringAny (fieldVal f "preset")
    .ok (core.append (.cons "id" id (consOpt "preset" preset .nil)))

/-- Model of `_plugin.parse` (strip mode): the final full plugin shape. The
`token` field (a transform over `is.unknown()`) accepts anything, and the
coerced `handle`/`template` fields coerce even an absent value. -/
def pluginStripParse (env : Env) : JVal → Except String JVal
  | .obj f => do
      let logs ← reqField f "logs" (parseEnum loglevels)
      let id ← reqField f "id" parseString1
      let args ← reqField f "args" parseArgs
      let retries ← reqField f "retries" parseRetriesRequired
      let fatal ← reqField f "fatal" parseBool
      let mock ← reqField f "mock" parseBool
      let api ← reqField f "api" parseUrl
      let token := secretParse ((f.lookup "token").getD .undef)
      let timezone ← reqField f "timezone" (parseTimezone env)
      let handle ← parseHandle ((f.lookup "handle").getD .undef)
      let entity ← reqField f "entity" (parseEnum entities)
      let template ← parseTemplate ((f.lookup "template").getD .undef)
      let processors ← match fieldVal f "processors" with
        | none => .error "processors: required"
        | some (.arr xs) => (exceptMapJList processorParse xs).map JVal.arr
        | some _ => .error "processors: expected array"
      .ok (jobj [("logs", logs), ("id", id), ("args", args), ("retries", retries),
        ("fatal", fatal), ("mock", mock), ("api", api), ("token", token),
        ("timezone", timezone), ("handle", handle), ("entity", entity),
        ("template", template), ("processors", processors)])
  | _ => .error "expected object"

/-- The `plugin` preprocess: `sugar`, strict extended parse, drop `preset`;
on failure the original value is passed on. -/
def pluginPre (env : Env) (v : JVal) : JVal :=
  match sugar v pluginKeys with
  | .obj f =>
      match pluginPreStrictParse env f with
      | .ok data => .obj (data.erase "preset")
      | .error _ => v
  | _ => v

/-- Model of the `plugin` schema: the preprocess, then `_plugin`. -/
def pluginParse (env : Env) (v : JVal) : Except String JVal :=
  pluginStripParse env (pluginPre env v)

/-- The keys removed by `_plugin_nop_removed_keys`. -/
def nopRemovedKeys : List String := ["id", "args", "retries", "template"]

/-- Model of `_preset_plugin.extend({ preset }).strict().safeParse`, the body
of the `plugin_nop` preprocess (no `id` in the shape, no sugar). -/
def pluginNopPreParse (env : Env) (f : JFields) : Except String JFields :=
  if !(f.keys.all (fun k => (pluginKeys ++ ["preset"]).contains k)) then
    .error "unrecognized keys"
  else do
    let core ← presetPluginParse env (.obj f)
    let preset ← optField parseStringAny (fieldVal f "preset")
    .ok (core.append (consOpt "preset" preset .nil))

/-- Model of `_plugin_nop`: `_plugin.omit({id, args, retries,
template}).strict()` followed by the transform appending `template: null`. -/
def pluginNopStrictParse (env : Env) : JVal → Except String JVal
  | .obj f =>
      if !(f.keys.all (fun k =>
          ["logs", "fatal", "mock", "api", "token", "timezone", "handle",
           "entity", "processors"].contains k)) then
        .error "unrecognized keys"
      else do
        let logs ← reqField f "logs" (parseEnum loglevels)
        let fatal ← reqField f "fatal" parseBool
        let mock ← reqField f "mock" parseBool
        let api ← reqField f "api" parseUrl
        let token := secretParse ((f.lookup "token").getD .undef)
        let timezone ← reqField f "timezone" (parseTimezone env)
        let handle ← parseHandle ((f.lookup "handle").getD .undef)
        let entity ← reqField f "entity" (parseEnum entities)
        let processors ← match fieldVal f "processors" with
          | none => .error "processors: required"
          | some (.arr xs) => (exceptMapJList processorParse xs).map JVal.arr
          | some _ => .error "processors: expected array"
        .ok (jobj [("logs", logs), ("fatal", fatal), ("mock", mock), ("api", api),
          ("token", token), ("timezone", timezone), ("handle", handle),
          ("entity", entity), ("processors", processors), ("template", JVal.null)])
  | _ => .error "expected object"

/-- The `plugin_nop` preprocess: strict extended parse of the raw value,
deletion of the NOP keys; on failure the original value is passed on. -/
def pluginNopPre (env : Env) (v : JVal) : JVal :=
  match v with
  | .obj f =>
      match pluginNopPreParse env f with
      | .ok data => .obj (data.dropKeys nopRemovedKeys)
      | .error _ => v
  | _ => v

/-- Model of the `plugin_nop` schema: the preprocess, then `_plugin_nop`. -/
def pluginNopParse (env : Env) (v : JVal) : Except String JVal :=
  pluginNopStrictParse env (pluginNopPre env v)

/-- Model of `is.union([plugin, plugin_nop])`: first success in order. -/
def pluginUnionParse (env : Env) (v : JVal) : Except String JVal :=
  match pluginParse env v with
  | .ok r => .ok r
  | .error _ => pluginNopParse env v

/-- Model of the `preset` schema: `plugins` and `processors` bundles, each
defaulting to the parse of `{}`. -/
def presetParse (env : Env) : JVal → Except String JVal
  | .obj f => do
      let plugins ← presetPluginParse env ((fieldVal f "plugins").getD (jobj []))
      let processors ← presetProcessorParse ((fieldVal f "processors").getD (jobj []))
      .ok (jobj [("plugins", .obj plugins), ("processors", .obj processors)])
  | _ => .error "expected object"

/-- Model of `is.record(is.string(), preset)`. -/
def presetRecordParse (env : Env) : JFields → Except String JFields
  | .nil => .ok .nil
  | .cons k v rest => do
      let b ← presetParse env v
      let tail ← presetRecordParse env rest
      .ok (.cons k b tail)

/-- Model of `_config.parse` (strip mode): the strict validation pass over the
preprocessed tree. -/
def configStrictParse (env : Env) : JVal → Except String JVal
  | .obj f => do
      let plugins ← match fieldVal f "plugins" with
        | none => .error "plugins: required"
        | some (.arr xs) => (exceptMapJList (pluginUnionParse env) xs).map JVal.arr
        | some _ => .error "plugins: expected array"
      let presets ← match fieldVal f "presets" with
        | none => .error "presets: required"
        | some (.obj pf) => (presetRecordParse env pf).map JVal.obj
        | some _ => .error "presets: expected object"
      .ok (jobj [("plugins", plugins), ("presets", presets)])
  | _ => .error "expected object"

/-! ## The config preprocess (cascade resolver) -/

/-- Model of the loose pre-parse of a processor entry inside the `config`
preprocess: `is.object({ preset: is.string().optional() }).passthrough()`. -/
def preparseProcessor : JVal → Except String JFields
  | .obj f => do
      let preset ← optField parseStringAny (fieldVal f "preset")
      .ok ((consOpt "preset" preset .nil).append (f.dropKeys ["preset"]))
  | _ => .error "expected object"

/-- Model of the loose pre-parse of a plugin entry inside the `config`
preprocess: optional `preset` string, optional `processors` array of
passthrough records, everything else passed through. -/
def preparsePlugin : JVal → Except String JFields
  | .obj f => do
      let preset ← optField parseStringAny (fieldVal f "preset")
      let processors ← match fieldVal f "processors" with
        | none => .ok none
        | some (.arr xs) =>
            (exceptMapJList (fun e => (preparseProcessor e).map JVal.obj) xs).map
              (fun ys => some (JVal.arr ys))
        | some _ => .error "processors: expected array"
      .ok ((consOpt "preset" preset (consOpt "processors" processors .nil)).append
        (f.dropKeys ["preset", "processors"]))
  | _ => .error "expected object"

/-- Model of `is.record(is.string(), is.record(is.string(), is.unknown()))`:
every bundle must be a plain object, values are passed through. -/
def recordOfRecordsParse : JFields → Except String JFields
  | .nil => .ok .nil
  | .cons k v rest =>
      match v with
      | .obj bf => do
          let tail ← recordOfRecordsParse rest
          .ok (.cons k (.obj bf) tail)
      | _ => .error "expected object"

/-- The property key JavaScript uses for `presets[plugin.preset!]`: the
`preset` value coerced to a string, `undefined` when absent. -/
def presetNameOf (p : JFields) : String :=
  jsToString ((p.lookup "preset").getD .undef)

/-- Whether `??=` fires: the value is absent, `undefined` or `null`. -/
def isNullish : Option JVal → Bool
  | none => true
  | some .undef => true
  | some .null => true
  | _ => false

/-- The three-layer plugin cascade of `config` (line 169):
`merge(value.presets.default.plugins, value.presets[plugin.preset!]?.plugins,
plugin)`. -/
def resolvePlugin (presets : JFields) (p : JFields) : JFields :=
  mergeList [jsGet ((presets.lookup "default").getD .undef) "plugins",
             jsGet ((presets.lookup (presetNameOf p)).getD .undef) "plugins",
             .obj p]

/-- The four-layer processor cascade of `config` (line 172). -/
def resolveProcessor (presets : JFields) (pluginPreset : String) (proc : JFields) :
    JFields :=
  mergeList [jsGet ((presets.lookup "default").getD .undef) "processors",
             jsGet ((presets.lookup pluginPreset).getD .undef) "processors",
             jsGet ((presets.lookup (presetNameOf proc)).getD .undef) "processors",
             .obj proc]

/-- Model of the processor loop `for (const processor of plugin.processors)`
with its `Object.assign`: objects are merged in place; a string iterates its
characters onto temporary wrappers (no visible effect); other non-arrays are
not iterable, and assigning onto a nullish element throws. -/
def cascadeProcessors (presets : JFields) (pluginPreset : String) :
    JVal → Except String JVal
  | .arr xs =>
      (exceptMapJList
        (fun e =>
          match e with
          | .obj pf => .ok (.obj (pf.objAssign (resolveProcessor presets pluginPreset pf)))
          | .null => .error "cannot convert null to object"
          | .undef => .error "cannot convert undefined to object"
          | e => .ok e)
        xs).map JVal.arr
  | .str s => .ok (.str s)
  | _ => .error "plugin.processors is not iterable"

/-- One iteration of the plugin loop in the `config` preprocess:
`Object.assign(plugin, merge(...))`, `plugin.processors ??= []`, then the
processor loop (which reads `plugin.preset` after the assign). -/
def cascadePlugin (presets : JFields) (p : JFields) : Except String JFields := do
  let p1 := p.objAssign (resolvePlugin presets p)
  let p2 := if isNullish (p1.lookup "processors") then
              p1.setKey "processors" (jarr [])
            else p1
  let procs ← cascadeProcessors presets (presetNameOf p1)
    ((p2.lookup "processors").getD .undef)
  .ok (p2.setKey "processors" procs)

/-- The `plugins` half of the loose structural pre-parse: an optional array of
plugin entries, defaulting to `[]`. -/
def preparsedPlugins (f : JFields) : Except String (List JFields) :=
  match fieldVal f "plugins" with
  | none => .ok []
  | some (.arr xs) => exceptMapList preparsePlugin xs.toList
  | some _ => .error "plugins: expected array"

/-- The `presets` half of the loose structural pre-parse: an optional record
of records, defaulting to `{}`. -/
def preparsedPresets (f : JFields) : Except String JFields :=
  match fieldVal f "presets" with
  | none => .ok JFields.nil
  | some (.obj pf) => recordOfRecordsParse pf
  | some _ => .error "presets: expected object"

/-- Default-bundle synthesis: `if (!value.presets.default)
value.presets.default = preset.parse({})`. -/
def ensureDefault (env : Env) (presets : JFields) : Except String JFields :=
  if presets.hasKey "default" then .ok presets
  else do
    let d ← presetParse env (jobj [])
    .ok (presets.setKey "default" d)

/-- Model of the `config` preprocess (lines 151-176): loose pre-parse with
defaults, default-preset synthesis, and the cascade merge of every plugin and
processor entry. -/
def configPreprocess (env : Env) : JVal → Except String JVal
  | .obj f => do
      let plugins ← preparsedPlugins f
      let presets0 ← preparsedPresets f
      let presets ← ensureDefault env presets0
      let plugins ← exceptMapList (cascadePlugin presets) plugins
      .ok (.obj (.cons "plugins" (.arr (JList.ofList (plugins.map JVal.obj)))
        (.cons "presets" (.obj presets) (f.dropKeys ["plugins", "presets"]))))
  | _ => .error "expected object"

/-- Model of the full `config` schema: preprocess, then `_config`. -/
def configParse (env : Env) (v : JVal) : Except String JVal := do
  let pre ← configPreprocess env v
  configStrictParse env pre

/-! ## The restricted web-input schema -/

/-- A processor entry of the `webrequest` shape, parsed from the three fields
exposed by `_processor.pick({id, fatal, args}).partial().extend({id})`. -/
def wrProcessorFields (idv fatalv argsv : Option JVal) : Except String JVal := do
  let id ← match optUndef idv with
    | none => .error "id: required"
    | some v => parseString1 v
  let fatal ← optField parseBool (optUndef fatalv)
  let args ← optField parseArgs (optUndef argsv)
  .ok (.obj (.cons "id" id (consOpt "fatal" fatal (consOpt "args" args .nil))))

/-- Model of the `webrequest` processor element schema (strip mode). -/
def wrProcessorParse : JVal → Except String JVal
  | .obj f => wrProcessorFields (f.lookup "id") (f.lookup "fatal") (f.lookup "args")
  | _ => .error "expected object"

/-- A plugin entry of the `webrequest` shape, parsed from the eight fields
exposed by the pick (`id`, `timezone`, `handle`, `fatal`, `entity`,
`template`, `args`) plus `processors`, all optional (`.partial()`); `token`,
`api`, `retries` and `mock` are not in the shape and are stripped. -/
def wrPluginFields (env : Env)
    (idv tzv handlev fatalv entityv templatev argsv procsv : Option JVal) :
    Except String JVal := do
  let id ← optField parseString1 (optUndef idv)
  let timezone ← optField (parseTimezone env) (optUndef tzv)
  let handle ← optField parseHandle (optUndef handlev)
  let fatal ← optField parseBool (optUndef fatalv)
  let entity ← optField (parseEnum entities) (optUndef entityv)
  let template ← optField parseTemplate (optUndef templatev)
  let args ← optField parseArgs (optUndef argsv)
  let processors ← match optUndef procsv with
    | none => .ok none
    | some (.arr xs) =>
        (exceptMapJList wrProcessorParse xs).map (fun ys => some (JVal.arr ys))
    | some _ => .error "processors: expected array"
  .ok (.obj (consOpt "id" id (consOpt "timezone" timezone (consOpt "handle" handle
    (consOpt "fatal" fatal (consOpt "entity" entity (consOpt "template" template
      (consOpt "args" args (consOpt "processors" processors .nil)))))))))

/-- Model of the `webrequest` plugin element schema (strip mode). -/
def wrPluginParse (env : Env) : JVal → Except String JVal
  | .obj f =>
      wrPluginFields env (f.lookup "id") (f.lookup "timezone")
        (f.lookup "handle") (f.lookup "fatal") (f.lookup "entity")
        (f.lookup "template") (f.lookup "args") (f.lookup "processors")
  | _ => .error "expected object"

/-- The `mock` field of the `webrequest` schema: a boolean defaulting to
`false`. -/
def wrMockParse (f : JFields) : Except String JVal :=
  match fieldVal f "mock" with
  | none => parseBool (.bool false)
  | some v => parseBool v

/-- The `plugins` field of the `webrequest` schema: the restricted plugin
list, defaulting to `[]`. -/
def wrPluginsParse (env : Env) (f : JFields) : Except String JVal :=
  match fieldVal f "plugins" with
  | none => .ok (jarr [])
  | some (.arr xs) => (exceptMapJList (wrPluginParse env) xs).map JVal.arr
  | some _ => .error "plugins: expected array"

/-- Model of the `webrequest` schema (strip mode). -/
def webrequestParse (env : Env) : JVal → Except String JVal
  | .obj f => do
      let mock ← wrMockParse f
      let plugins ← wrPluginsParse env f
      .ok (jobj [("mock", mock), ("plugins", plugins)])
  | _ => .error "expected object"

/-! ## Auxiliary definitions used by the theorem statements -/

/-- Whether a value is a plain object. -/
def isObjV : JVal → Bool
  | .obj _ => true
  | _ => false

/-- Whether a value is a wrapped Secret. -/
def isSecretV : JVal → Bool
  | .secret _ => true
  | _ => false

/-- Whether a parse succeeded. -/
def isOkE : Except String JVal → Bool
  | .ok _ => true
  | .error _ => false

/-- The successful result of a parse (`undefined` on failure). -/
def extractOk : Except String JVal → JVal
  | .ok v => v
  | .error _ => JVal.undef

/-- The first plugin entry of a resolution result. -/
def firstPluginOf (r : Except String JVal) : JVal :=
  match r with
  | .ok cfg =>
      match jsGet cfg "plugins" with
      | .arr (.cons p _) => p
      | _ => JVal.undef
  | .error _ => JVal.undef

/-- Check every element of an array. -/
def jlistAll (p : JVal → Bool) : JList → Bool
  | .nil => true
  | .cons x xs => p x && jlistAll p xs

/-- The default-bundle plugin layer of the cascade
(`value.presets.default.plugins`). -/
def defaultPluginLayer (presets : JFields) : JFields :=
  recordFieldsOf (jsGet ((presets.lookup "default").getD .undef) "plugins")

/-- The named-preset plugin layer of the cascade
(`value.presets[plugin.preset!]?.plugins`). -/
def namedPluginLayer (presets : JFields) (p : JFields) : JFields :=
  recordFieldsOf (jsGet ((presets.lookup (presetNameOf p)).getD .undef) "plugins")

/-- The default-bundle processor layer of the cascade. -/
def defaultProcessorLayer (presets : JFields) : JFields :=
  recordFieldsOf (jsGet ((presets.lookup "default").getD .undef) "processors")

/-- The plugin-preset processor layer of the cascade. -/
def pluginPresetProcessorLayer (presets : JFields) (pluginPreset : String) : JFields :=
  recordFieldsOf (jsGet ((presets.lookup pluginPreset).getD .undef) "processors")

/-- A sample environment: a set token and the UTC host zone. -/
def env0 : Env := { token := .str "T", timezone := "UTC", timezones := ["UTC"] }

/-! ## Lemmas about field operations -/

/-- Induction on a field list alone (the values are treated as opaque, so the
mutual eliminator is not needed). -/
theorem JFields.fieldsInduction {motive : JFields → Prop} (f : JFields)
    (nil : motive .nil)
    (cons : ∀ k v rest, motive rest → motive (.cons k v rest)) : motive f :=
  match f with
  | .nil => nil
  | .cons k v rest => cons k v rest (fieldsInduction rest nil cons)
  termination_by structural f

/-- Induction on an array alone. -/
theorem JList.jlistInduction {motive : JList → Prop} (l : JList)
    (nil : motive .nil)
    (cons : ∀ x rest, motive rest → motive (.cons x rest)) : motive l :=
  match l with
  | .nil => nil
  | .cons x rest => cons x rest (jlistInduction rest nil cons)
  termination_by structural l

namespace JFields

theorem lookup_append_of_isSome {a : JFields} {k : String} (b : JFields)
    (h : (a.lookup k).isSome) : (a.append b).lookup k = a.lookup k := by
  induction a using JFields.fieldsInduction with
  | nil => simp [lookup] at h
  | cons k' v rest ih =>
      by_cases hk : k' = k
      · simp [append, lookup, hk]
      · simp [append, lookup, hk] at h ⊢
        exact ih h

theorem lookup_append_of_none {a : JFields} {k : String} (b : JFields)
    (h : a.lookup k = none) : (a.append b).lookup k = b.lookup k := by
  induction a using JFields.fieldsInduction with
  | nil => simp [append]
  | cons k' v rest ih =>
      by_cases hk : k' = k
      · simp [lookup, hk] at h
      · simp [append, lookup, hk] at h ⊢
        exact ih h

theorem lookup_setKey (f : JFields) (k : String) (v : JVal) (k' : String) :
    (f.setKey k v).lookup k' = if k = k' then some v else f.lookup k' := by
  induction f using JFields.fieldsInduction with
  | nil => simp [setKey, lookup]
  | cons k'' v'' rest ih =>
      by_cases h1 : k'' = k
      · subst h1
        by_cases h2 : k'' = k' <;> simp [setKey, lookup, h2]
      · by_cases h2 : k'' = k'
        · subst h2
          have : ¬(k = k'') := fun h => h1 h.symm
          simp [setKey, lookup, h1, this]
        · simp [setKey, lookup, h1, h2, ih]

theorem lookup_erase_self (f : JFields) (k : String) :
    (f.erase k).lookup k = none := by
  induction f using JFields.fieldsInduction with
  | nil => simp [erase, lookup]
  | cons k' v rest ih =>
      by_cases hk : k' = k <;> simp [erase, lookup, hk, ih]

theorem lookup_erase_ne (f : JFields) {k k' : String} (h : k ≠ k') :
    (f.erase k).lookup k' = f.lookup k' := by
  induction f using JFields.fieldsInduction with
  | nil => simp [erase]
  | cons k'' v rest ih =>
      by_cases hk : k'' = k
      · subst hk
        have : ¬(k'' = k') := h
        simp [erase, lookup, this, ih]
      · simp [erase, lookup, hk, ih]

theorem erase_of_lookup_none {f : JFields} {k : String} (h : f.lookup k = none) :
    f.erase k = f := by
  induction f using JFields.fieldsInduction with
  | nil => simp [erase]
  | cons k' v rest ih =>
      by_cases hk : k' = k
      · simp [lookup, hk] at h
      · simp [lookup, hk] at h
        simp [erase, hk, ih h]

theorem lookup_dropKeys (ks : List String) (f : JFields) (k : String) :
    (f.dropKeys ks).lookup k = if ks.contains k then none else f.lookup k := by
  induction f using JFields.fieldsInduction with
  | nil =>
      simp only [dropKeys, lookup]
      by_cases h : ks.contains k <;> simp [h]
  | cons k' v rest ih =>
      by_cases h1 : k' ∈ ks
      · by_cases h2 : k' = k
        · subst h2
          simp [dropKeys, List.elem_iff, h1, ih]
        · simp [dropKeys, List.elem_iff, h1, ih, lookup, h2]
      · by_cases h2 : k' = k
        · subst h2
          simp [dropKeys, List.elem_iff, h1, lookup]
        · simp [dropKeys, List.elem_iff, h1, lookup, h2, ih]

theorem contains_keys (f : JFields) (k : String) :
    f.keys.contains k = (f.lookup k).isSome := by
  induction f using JFields.fieldsInduction with
  | nil => simp [keys, lookup]
  | cons k' v rest ih =>
      by_cases hk : k' = k
      · subst hk
        simp [keys, lookup, List.contains_cons]
      · have hk2 : ¬(k = k') := fun h => hk h.symm
        simp only [keys, lookup, List.contains_cons, if_neg hk]
        rw [← ih]
        simp [hk2]

theorem dropKeys_nil (f : JFields) : f.dropKeys [] = f := by
  induction f using JFields.fieldsInduction with
  | nil => rfl
  | cons k v rest ih => simp [dropKeys, ih]

theorem append_nil (f : JFields) : f.append .nil = f := by
  induction f using JFields.fieldsInduction with
  | nil => rfl
  | cons k v rest ih => simp [append, ih]

end JFields

/-! ## Lemmas about the cascade merge -/

theorem lookup_mergeInto (a b : JFields) (k : String) :
    (mergeInto a b).lookup k =
      match a.lookup k, b.lookup k with
      | some v, some w => some (mergeVal v w)
      | some v, none => some v
      | none, _ => none := by
  induction a using JFields.fieldsInduction with
  | nil => simp [mergeInto, JFields.lookup]
  | cons k' v rest ih =>
      by_cases hk : k' = k
      · subst hk
        cases hb : b.lookup k' <;>
          simp [mergeInto, JFields.lookup, hb]
      · cases hb : b.lookup k' <;>
          simp [mergeInto, JFields.lookup, hb, hk, ih]

theorem lookup_mergeFields (a b : JFields) (k : String) :
    (mergeFields a b).lookup k =
      match a.lookup k, b.lookup k with
      | some v, some w => some (mergeVal v w)
      | some v, none => some v
      | none, o => o := by
  cases ha : a.lookup k with
  | some v =>
      have hs : ((mergeInto a b).lookup k).isSome := by
        rw [lookup_mergeInto, ha]
        cases b.lookup k <;> simp
      rw [mergeFields, JFields.lookup_append_of_isSome _ hs, lookup_mergeInto, ha]
      cases hb : b.lookup k <;> rfl
  | none =>
      have hn : (mergeInto a b).lookup k = none := by
        rw [lookup_mergeInto, ha]
      rw [mergeFields, JFields.lookup_append_of_none _ hn, JFields.lookup_dropKeys,
        JFields.contains_keys, ha]
      simp

theorem mergeVal_of_not_obj (a : JVal) {b : JVal} (h : isObjV b = false) :
    mergeVal a b = b := by
  cases a <;> cases b <;> simp [isObjV] at h ⊢ <;> rfl

theorem mergeFields_nil_left (b : JFields) : mergeFields .nil b = b := by
  simp [mergeFields, mergeInto, JFields.append, JFields.keys, JFields.dropKeys_nil]

theorem mergeInto_nil (a : JFields) : mergeInto a .nil = a := by
  induction a using JFields.fieldsInduction with
  | nil => rfl
  | cons k v rest ih => simp [mergeInto, JFields.lookup, ih]

theorem mergeFields_nil_right (a : JFields) : mergeFields a .nil = a := by
  simp [mergeFields, mergeInto_nil, JFields.dropKeys, JFields.append_nil]

/-- The three-layer plugin cascade, written as two binary merges. -/
theorem resolvePlugin_eq (presets p : JFields) :
    resolvePlugin presets p =
      mergeFields (mergeFields (defaultPluginLayer presets)
        (namedPluginLayer presets p)) p := by
  simp [resolvePlugin, mergeList, defaultPluginLayer, namedPluginLayer,
    mergeFields_nil_left, recordFieldsOf]

/-- The four-layer processor cascade, written as three binary merges. -/
theorem resolveProcessor_eq (presets : JFields) (pluginPreset : String)
    (proc : JFields) :
    resolveProcessor presets pluginPreset proc =
      mergeFields (mergeFields (mergeFields (defaultProcessorLayer presets)
        (pluginPresetProcessorLayer presets pluginPreset))
        (recordFieldsOf (jsGet ((presets.lookup (presetNameOf proc)).getD .undef)
          "processors"))) proc := by
  simp [resolveProcessor, mergeList, defaultProcessorLayer,
    pluginPresetProcessorLayer, mergeFields_nil_left, recordFieldsOf]

/-! ## Inversion helpers for the parsers -/

theorem exbind_ok {α β : Type} {x : Except String α} {g : α → Except String β}
    {b : β} : x >>= g = .ok b ↔ ∃ a, x = .ok a ∧ g a = .ok b := by
  cases x <;> simp [Bind.bind, Except.bind]

theorem exmap_ok {α β : Type} {x : Except String α} {g : α → β} {b : β} :
    Except.map g x = .ok b ↔ ∃ a, x = .ok a ∧ g a = b := by
  cases x <;> simp [Except.map]

theorem recordOfRecordsParse_ok {pf g : JFields}
    (h : recordOfRecordsParse pf = .ok g) : g = pf := by
  induction pf using JFields.fieldsInduction generalizing g with
  | nil =>
      simp only [recordOfRecordsParse] at h
      cases h
      rfl
  | cons k v rest ih =>
      cases v <;> simp only [recordOfRecordsParse] at h <;> try exact absurd h (by simp)
      rw [exbind_ok] at h
      obtain ⟨tail, htail, hok⟩ := h
      cases hok
      rw [ih htail]

/-- Evaluation of `sugar` on an object that is not already canonical. -/
theorem sugar_obj_eq (f : JFields) (keys : List String)
    (hid : f.hasKey "id" = false)
    (hargs : argsGuard (f.lookup "args") = false) :
    sugar (.obj f) keys =
      match unrecognizedKeys f keys with
      | [] =>
          .obj ((f.erase "undefined").objAssign
            (.cons "id" .undef (.cons "args" ((f.lookup "undefined").getD .undef) .nil)))
      | id :: extras =>
          if extras.isEmpty then
            .obj ((f.erase id).objAssign
              (.cons "id" (.str id) (.cons "args" ((f.lookup id).getD .undef) .nil)))
          else
            .obj (.cons "id" (.str "") f) := by
  simp [sugar, spreadFields, hid, hargs]

/-! ## The synthesized default bundle -/

/-- The plugin half of `preset.parse({})`: every plugin-level default. -/
def defaultPluginBundle (env : Env) : JFields :=
  JFields.ofList
    [("args", jobj []), ("logs", .str "trace"),
     ("api", .str "https://api.github.com"), ("token", secretParse env.token),
     ("handle", .null), ("entity", .str "user"), ("template", .str "classic"),
     ("timezone", .str env.timezone), ("mock", .bool false),
     ("processors", jarr []), ("fatal", .bool false),
     ("retries", jobj [("attempts", .num 3), ("delay", .num 120)])]

/-- The value of `preset.parse({})`: the synthesized default bundle. -/
def defaultBundle (env : Env) : JVal :=
  jobj [("plugins", .obj (defaultPluginBundle env)),
        ("processors", jobj [("args", jobj []), ("logs", .str "trace"),
          ("fatal", .bool false),
          ("retries", jobj [("attempts", .num 1), ("delay", .num 120)])])]

theorem presetPluginParse_empty (env : Env)
    (h1 : (env.timezone.length == 0) = false)
    (h2 : env.timezones.contains env.timezone = true) :
    presetPluginParse env (jobj []) = .ok (defaultPluginBundle env) := by
  have hmem : env.timezone ∈ env.timezones := List.elem_iff.mp h2
  have h3 : parseTimezone env (.str env.timezone) = .ok (.str env.timezone) := by
    simp [parseTimezone, h1, hmem]
  calc presetPluginParse env (jobj [])
      = parseTimezone env (.str env.timezone) >>= (fun timezone =>
          .ok (JFields.ofList
            [("args", jobj []), ("logs", .str "trace"),
             ("api", .str "https://api.github.com"), ("token", secretParse env.token),
             ("handle", .null), ("entity", .str "user"), ("template", .str "classic"),
             ("timezone", timezone), ("mock", .bool false),
             ("processors", jarr []), ("fatal", .bool false),
             ("retries", jobj [("attempts", .num 3), ("delay", .num 120)])])) := rfl
    _ = .ok (defaultPluginBundle env) := by rw [h3]; rfl

theorem presetParse_empty (env : Env)
    (h1 : (env.timezone.length == 0) = false)
    (h2 : env.timezones.contains env.timezone = true) :
    presetParse env (jobj []) = .ok (defaultBundle env) := by
  calc presetParse env (jobj [])
      = presetPluginParse env (jobj []) >>= (fun plugins =>
          .ok (jobj [("plugins", .obj plugins),
            ("processors", jobj [("args", jobj []), ("logs", .str "trace"),
              ("fatal", .bool false),
              ("retries", jobj [("attempts", .num 1), ("delay", .num 120)])])])) := rfl
    _ = .ok (defaultBundle env) := by rw [presetPluginParse_empty env h1 h2]; rfl

/-! ## Concrete example documents -/

/-- Cascade-precedence example: `presets.default.plugins.fatal = false`,
`presets.ci.plugins.fatal = true`, and a plugin declaring `preset: "ci"` with
no explicit `fatal`. -/
def c1docPreset : JVal :=
  jobj [("presets", jobj
          [("default", jobj [("plugins", jobj [("fatal", .bool false)])]),
           ("ci", jobj [("plugins", jobj [("fatal", .bool true)])])]),
        ("plugins", jarr [jobj [("id", .str "t"), ("preset", .str "ci")]])]

/-- The same document with the plugin declaring `fatal: false` explicitly. -/
def c1docExplicit : JVal :=
  jobj [("presets", jobj
          [("default", jobj [("plugins", jobj [("fatal", .bool false)])]),
           ("ci", jobj [("plugins", jobj [("fatal", .bool true)])])]),
        ("plugins", jarr [jobj [("id", .str "t"), ("preset", .str "ci"),
          ("fatal", .bool false)]])]

/-- Array-replace example: the plugin declares a non-empty `processors` list
and its preset also defines `processors`. -/
def c2doc : JVal :=
  jobj [("presets", jobj [("default", jobj []),
          ("ci", jobj [("plugins", jobj
            [("processors", jarr [jobj [("id", .str "p1")]])])])]),
        ("plugins", jarr [jobj [("id", .str "x"), ("preset", .str "ci"),
          ("processors", jarr [jobj [("id", .str "mine")]])]])]

/-- Ambiguous-sugar example: two unrecognized keys. -/
def c6doc : JVal :=
  jobj [("plugins", jarr [jobj [("foo", jobj []), ("bar", jobj [])]])]

/-- A document whose only plugin references a preset that does not exist. -/
def c7docGhost : JVal :=
  jobj [("plugins", jarr [jobj [("id", .str "x"), ("preset", .str "ghost")]])]

/-- The same document without the preset reference. -/
def c7docNoGhost : JVal :=
  jobj [("plugins", jarr [jobj [("id", .str "x")]])]

/-- A declaration whose keys are all recognized (zero unrecognized keys). -/
def c10decl : JVal := jobj [("logs", .str "info")]

/-! ## Claim theorems -/

/-- C1: every field of a plugin entry is resolved by merging the layer stack
`presets.default.plugins`, then `presets[plugin.preset].plugins`, then the
explicit plugin fields, lowest to highest precedence: a non-object explicit
value always wins; a non-object named-preset value beats the default bundle
when no explicit value exists; and the default layer supplies the value when
neither higher layer has the key. On the example documents, the plugin
declaring `preset "ci"` (with `default.fatal = false`, `ci.fatal = true`)
resolves `fatal` to `true`, and additionally declaring `fatal: false`
explicitly resolves it to `false`. -/
theorem cascade_precedence (presets p : JFields) (k : String) :
    (∀ v, p.lookup k = some v → isObjV v = false →
      (resolvePlugin presets p).lookup k = some v) ∧
    (p.lookup k = none →
      ∀ v, (namedPluginLayer presets p).lookup k = some v → isObjV v = false →
        (resolvePlugin presets p).lookup k = some v) ∧
    (p.lookup k = none → (namedPluginLayer presets p).lookup k = none →
      ∀ v, (defaultPluginLayer presets).lookup k = some v →
        (resolvePlugin presets p).lookup k = some v) ∧
    jsGet (firstPluginOf (configPreprocess env0 c1docPreset)) "fatal" = .bool true ∧
    jsGet (firstPluginOf (configPreprocess env0 c1docExplicit)) "fatal" = .bool false := by
  refine ⟨?_, ?_, ?_, rfl, rfl⟩
  · intro v hv hobj
    rw [resolvePlugin_eq, lookup_mergeFields, hv]
    cases (mergeFields (defaultPluginLayer presets) (namedPluginLayer presets p)).lookup k with
    | none => rfl
    | some w => simp [mergeVal_of_not_obj _ hobj]
  · intro hp v hv hobj
    rw [resolvePlugin_eq, lookup_mergeFields, hp, lookup_mergeFields, hv]
    cases (defaultPluginLayer presets).lookup k with
    | none => rfl
    | some w => simp [mergeVal_of_not_obj _ hobj]
  · intro hp hn v hv
    rw [resolvePlugin_eq, lookup_mergeFields, hp, lookup_mergeFields, hn, hv]

/-- The presets record of the precedence example, as seen by the cascade. -/
def c1presets : JFields :=
  JFields.ofList
    [("default", jobj [("plugins", jobj [("fatal", .bool false)])]),
     ("ci", jobj [("plugins", jobj [("fatal", .bool true)])])]

/-- The example plugin entry without an explicit `fatal`. -/
def c1pluginNoFatal : JFields :=
  JFields.ofList [("preset", .str "ci"), ("id", .str "t")]

/-- The example plugin entry with an explicit `fatal: false`. -/
def c1pluginFatal : JFields :=
  JFields.ofList [("preset", .str "ci"), ("id", .str "t"), ("fatal", .bool false)]

/-- Witness for C1 at the example: with `default.plugins.fatal = false` and
`ci.plugins.fatal = true`, a plugin referencing `ci` without explicit `fatal`
resolves to `true`, and with explicit `fatal: false` resolves to `false`. -/
theorem cascade_precedence_witness :
    (resolvePlugin c1presets c1pluginNoFatal).lookup "fatal" = some (.bool true) ∧
    (resolvePlugin c1presets c1pluginFatal).lookup "fatal" = some (.bool false) :=
  ⟨((cascade_precedence c1presets c1pluginNoFatal "fatal").2.1 rfl (.bool true) rfl rfl),
   ((cascade_precedence c1presets c1pluginFatal "fatal").1 (.bool false) rfl rfl)⟩

/-- C2: array-valued fields are replaced wholesale by the highest-precedence
non-absent array, never concatenated: whatever the preset layers contain, a
plugin with an explicit `processors` array resolves to exactly that array; on
the example document, the explicit one-element list survives unchanged even
though the `ci` preset also defines `processors`. -/
theorem array_replace_semantics (presets p : JFields) (xs : JList)
    (hp : p.lookup "processors" = some (.arr xs)) :
    (resolvePlugin presets p).lookup "processors" = some (.arr xs) ∧
    jsGet (firstPluginOf (configPreprocess env0 c2doc)) "processors"
      = jarr [jobj [("id", .str "mine")]] := by
  refine ⟨?_, rfl⟩
  rw [resolvePlugin_eq, lookup_mergeFields, hp]
  cases (mergeFields (defaultPluginLayer presets) (namedPluginLayer presets p)).lookup
      "processors" with
  | none => rfl
  | some w => simp [mergeVal_of_not_obj _ (show isObjV (.arr xs) = false from rfl)]

/-- The presets record of the array-replace example. -/
def c2presets : JFields :=
  JFields.ofList
    [("default", jobj [("plugins", jobj [("processors", jarr [])])]),
     ("ci", jobj [("plugins", jobj
       [("processors", jarr [jobj [("id", .str "p1")]])])])]

/-- The example plugin entry with an explicit one-element `processors`. -/
def c2plugin : JFields :=
  JFields.ofList [("preset", .str "ci"), ("id", .str "x"),
    ("processors", jarr [jobj [("id", .str "mine")]])]

/-- Witness for C2: a plugin whose explicit `processors` is a one-element
array resolves to exactly that array under preset layers that also define
`processors`. -/
theorem array_replace_semantics_witness :
    (resolvePlugin c2presets c2plugin).lookup "processors"
      = some (jarr [jobj [("id", .str "mine")]]) :=
  (array_replace_semantics c2presets c2plugin
    (JList.ofList [jobj [("id", .str "mine")]]) rfl).1

/-- Sugar round-trip example input. -/
def c4decl : JVal := jobj [("readme", jobj [("sections", jarr [.str "intro"])])]

/-- C4: a declaration with no `id`, no non-empty `args` object, and exactly
one key outside the recognized set normalizes by removing that key, setting
`id` to its name and `args` to its value, leaving every other entry unchanged;
the example `{readme: {sections: [intro]}}` becomes
`{id: "readme", args: {sections: [intro]}}`. -/
theorem sugar_single_unrecognized (f : JFields) (keys : List String) (k : String)
    (hid : f.hasKey "id" = false)
    (hargs : argsGuard (f.lookup "args") = false)
    (hunrec : unrecognizedKeys f keys = [k])
    (hkargs : k ≠ "args") :
    (∃ g, sugar (.obj f) keys = .obj g ∧
      g.lookup "id" = some (.str k) ∧
      g.lookup "args" = f.lookup k ∧
      g.lookup k = none ∧
      (∀ x, x ≠ k → x ≠ "id" → x ≠ "args" → g.lookup x = f.lookup x)) ∧
    sugar c4decl pluginKeys
      = jobj [("id", .str "readme"),
              ("args", jobj [("sections", jarr [.str "intro"])])] := by
  refine ⟨?_, rfl⟩
  have hkmem : k ∈ f.keys := by
    have hfil : f.keys.filter (fun x => !keys.contains x) = [k] := hunrec
    have : k ∈ f.keys.filter (fun x => !keys.contains x) := by
      rw [hfil]
      exact List.mem_singleton.mpr rfl
    exact List.mem_of_mem_filter this
  have hsome : (f.lookup k).isSome := by
    rw [← JFields.contains_keys]
    exact List.elem_iff.mpr hkmem
  obtain ⟨v, hv⟩ := Option.isSome_iff_exists.mp hsome
  have hkid : k ≠ "id" := by
    intro he
    rw [he] at hv
    simp [JFields.hasKey, hv] at hid
  have hsugar : sugar (.obj f) keys
      = .obj ((((f.erase k).setKey "id" (.str k)).setKey "args" v)) := by
    rw [sugar_obj_eq f keys hid hargs, hunrec]
    show JVal.obj ((f.erase k).objAssign
      (.cons "id" (.str k) (.cons "args" ((f.lookup k).getD .undef) .nil))) = _
    rw [hv]
    rfl
  refine ⟨((f.erase k).setKey "id" (.str k)).setKey "args" v, hsugar, ?_, ?_, ?_, ?_⟩
  · simp [JFields.lookup_setKey]
  · simp [JFields.lookup_setKey, hv]
  · simp [JFields.lookup_setKey, Ne.symm hkargs, Ne.symm hkid,
      JFields.lookup_erase_self]
  · intro x hxk hxid hxargs
    simp [JFields.lookup_setKey, Ne.symm hxid, Ne.symm hxargs,
      JFields.lookup_erase_ne f (Ne.symm hxk)]

/-- Witness for C4: the spec example declaration normalized through the plugin
key set. -/
theorem sugar_single_unrecognized_witness :
    sugar c4decl pluginKeys
      = jobj [("id", .str "readme"),
              ("args", jobj [("sections", jarr [.str "intro"])])] :=
  (sugar_single_unrecognized
    (JFields.ofList [("readme", jobj [("sections", jarr [.str "intro"])])])
    pluginKeys "readme" rfl rfl rfl (by decide)).2

set_option maxHeartbeats 2000000 in
/-- C6: a declaration with no `id`, no non-empty `args`, and more than one
unrecognized key is rewritten (without an error) to the record prefixed with
an empty-string `id`, and the downstream strict validation then fails the
whole Config parse, as on the example `{foo: {}, bar: {}}`. -/
theorem ambiguous_sugar_rejected (f : JFields) (keys : List String)
    (k1 k2 : String) (rest : List String)
    (hid : f.hasKey "id" = false)
    (hargs : argsGuard (f.lookup "args") = false)
    (hunrec : unrecognizedKeys f keys = k1 :: k2 :: rest) :
    sugar (.obj f) keys = .obj (.cons "id" (.str "") f) ∧
    isOkE (configParse env0 c6doc) = false := by
  refine ⟨?_, rfl⟩
  rw [sugar_obj_eq f keys hid hargs, hunrec]
  rfl

/-- Witness for C6: the two-key example rewrites to an empty-string `id`. -/
theorem ambiguous_sugar_rejected_witness :
    sugar (jobj [("foo", jobj []), ("bar", jobj [])]) pluginKeys
      = .obj (.cons "id" (.str "")
          (JFields.ofList [("foo", jobj []), ("bar", jobj [])])) :=
  (ambiguous_sugar_rejected
    (JFields.ofList [("foo", jobj []), ("bar", jobj [])])
    pluginKeys "foo" "bar" [] rfl rfl rfl).1

set_option maxHeartbeats 4000000 in
/-- C7: a `preset` reference that names no existing bundle is never an error:
the corresponding cascade layer is empty, so the plugin cascade collapses to
the default layer plus the explicit fields, the processor cascade drops its
own-preset layer the same way, and a full document with a dangling reference
resolves successfully to exactly what it resolves to without the reference. -/
theorem unresolved_preset_skipped (presets p proc : JFields) (pluginPreset : String) :
    (presets.lookup (presetNameOf p) = none →
      resolvePlugin presets p = mergeFields (defaultPluginLayer presets) p) ∧
    (presets.lookup (presetNameOf proc) = none →
      resolveProcessor presets pluginPreset proc =
        mergeFields (mergeFields (defaultProcessorLayer presets)
          (pluginPresetProcessorLayer presets pluginPreset)) proc) ∧
    configParse env0 c7docGhost = configParse env0 c7docNoGhost ∧
    isOkE (configParse env0 c7docGhost) = true := by
  refine ⟨?_, ?_, rfl, rfl⟩
  · intro h
    rw [resolvePlugin_eq]
    have hnil : namedPluginLayer presets p = .nil := by
      simp [namedPluginLayer, h, jsGet, recordFieldsOf]
    rw [hnil, mergeFields_nil_right]
  · intro h
    rw [resolveProcessor_eq]
    have hnil : recordFieldsOf
        (jsGet ((presets.lookup (presetNameOf proc)).getD .undef) "processors")
        = .nil := by
      simp [h, jsGet, recordFieldsOf]
    rw [hnil, mergeFields_nil_right]

/-- The example plugin entry with a dangling preset reference. -/
def c7plugin : JFields :=
  JFields.ofList [("preset", .str "ghost"), ("id", .str "x")]

/-- Witness for C7: the ghost layer contributes nothing to the cascade, and
the dangling-reference document still validates. -/
theorem unresolved_preset_skipped_witness :
    resolvePlugin c1presets c7plugin
      = mergeFields (defaultPluginLayer c1presets) c7plugin ∧
    isOkE (configParse env0 c7docGhost) = true :=
  ⟨(unresolved_preset_skipped c1presets c7plugin c7plugin "default").1 rfl,
   (unresolved_preset_skipped c1presets c7plugin c7plugin "default").2.2.2⟩

set_option maxHeartbeats 2000000 in
/-- C10: a declaration with no `id`, no non-empty `args`, and zero
unrecognized keys is not returned unchanged: the normalizer extends the
record with `id` and `args` both set to `undefined` (removing no key), so it
can only be rejected later by `id` validation (as the plugin and processor
parses of the example show), never silently accepted as canonical. -/
theorem sugar_zero_unrecognized (f : JFields) (keys : List String)
    (hid : f.hasKey "id" = false)
    (hargs : argsGuard (f.lookup "args") = false)
    (hzero : unrecognizedKeys f keys = [])
    (hundef : keys.contains "undefined" = false) :
    (∃ g, sugar (.obj f) keys = .obj g ∧
      g.lookup "id" = some .undef ∧
      g.lookup "args" = some .undef ∧
      (∀ x, x ≠ "id" → x ≠ "args" → g.lookup x = f.lookup x) ∧
      (∀ x, f.hasKey x = true → g.hasKey x = true)) ∧
    sugar (.obj f) keys ≠ .obj f ∧
    isOkE (pluginParse env0 c10decl) = false ∧
    isOkE (processorParse c10decl) = false := by
  have hnou : f.lookup "undefined" = none := by
    cases hcase : f.lookup "undefined" with
    | none => rfl
    | some v =>
        exfalso
        have hmem : "undefined" ∈ f.keys := by
          have hc : f.keys.contains "undefined" = true := by
            rw [JFields.contains_keys, hcase]
            rfl
          exact List.elem_iff.mp hc
        have hfil : f.keys.filter (fun x => !keys.contains x) = [] := hzero
        have hin := List.filter_eq_nil_iff.mp hfil "undefined" hmem
        simp at hin
        have hc : keys.contains "undefined" = true := List.elem_iff.mpr hin
        rw [hundef] at hc
        exact Bool.false_ne_true hc
  have hsugar : sugar (.obj f) keys
      = .obj ((f.setKey "id" .undef).setKey "args" .undef) := by
    rw [sugar_obj_eq f keys hid hargs, hzero, JFields.erase_of_lookup_none hnou, hnou]
    rfl
  refine ⟨⟨(f.setKey "id" .undef).setKey "args" .undef, hsugar, ?_, ?_, ?_, ?_⟩,
    ?_, rfl, rfl⟩
  · simp [JFields.lookup_setKey]
  · simp [JFields.lookup_setKey]
  · intro x hxid hxargs
    simp [JFields.lookup_setKey, Ne.symm hxid, Ne.symm hxargs]
  · intro x hx
    by_cases h1 : x = "id"
    · subst h1
      simp [JFields.hasKey, JFields.lookup_setKey]
    · by_cases h2 : x = "args"
      · subst h2
        simp [JFields.hasKey, JFields.lookup_setKey]
      · simpa [JFields.hasKey, JFields.lookup_setKey, Ne.symm h1, Ne.symm h2] using hx
  · intro he
    rw [hsugar] at he
    have hfg : (f.setKey "id" .undef).setKey "args" .undef = f := by
      injection he
    have hfid : f.lookup "id" = some .undef := by
      rw [← hfg]
      simp [JFields.lookup_setKey]
    simp [JFields.hasKey, hfid] at hid

/-- Witness for C10: a declaration whose keys are all recognized is extended
with undefined `id`/`args` (not returned unchanged), and is rejected by both
component parses. -/
theorem sugar_zero_unrecognized_witness :
    sugar (jobj [("logs", .str "info")]) pluginKeys
      ≠ jobj [("logs", .str "info")] ∧
    isOkE (pluginParse env0 c10decl) = false :=
  ⟨(sugar_zero_unrecognized (JFields.ofList [("logs", .str "info")])
      pluginKeys rfl rfl rfl rfl).2.1,
   (sugar_zero_unrecognized (JFields.ofList [("logs", .str "info")])
      pluginKeys rfl rfl rfl rfl).2.2.1⟩

/-- A document object whose presets mapping lacks a bundle named `default`:
either no `presets` key at all, or a presets record without that bundle. -/
def lacksDefaultBundle (f : JFields) : Prop :=
  match fieldVal f "presets" with
  | none => True
  | some (.obj pf) => pf.lookup "default" = none
  | some _ => False

set_option maxHeartbeats 1000000 in
/-- C3: resolving any document without a `default` bundle synthesizes
`presets.default` as exactly the fixed-default bundle: plugin retries
`{attempts 3, delay 120}`, processor retries `{attempts 1, delay 120}`,
`fatal false` for both, `logs` at the fixed `trace` baseline, `entity
"user"`, `template "classic"`, the fixed API endpoint, the token wrapped from
the environment secret, the host timezone, `handle null` and `mock false`. -/
theorem default_bundle_synthesis (env : Env) (f : JFields) (out : JVal)
    (h1 : (env.timezone.length == 0) = false)
    (h2 : env.timezones.contains env.timezone = true)
    (hno : lacksDefaultBundle f)
    (h : configPreprocess env (.obj f) = .ok out) :
    jsGet (jsGet out "presets") "default" = defaultBundle env ∧
    jsGet (jsGet (defaultBundle env) "plugins") "retries"
      = jobj [("attempts", .num 3), ("delay", .num 120)] ∧
    jsGet (jsGet (defaultBundle env) "processors") "retries"
      = jobj [("attempts", .num 1), ("delay", .num 120)] ∧
    jsGet (jsGet (defaultBundle env) "plugins") "fatal" = .bool false ∧
    jsGet (jsGet (defaultBundle env) "processors") "fatal" = .bool false ∧
    jsGet (jsGet (defaultBundle env) "plugins") "logs" = .str "trace" ∧
    jsGet (jsGet (defaultBundle env) "processors") "logs" = .str "trace" ∧
    jsGet (jsGet (defaultBundle env) "plugins") "entity" = .str "user" ∧
    jsGet (jsGet (defaultBundle env) "plugins") "template" = .str "classic" ∧
    jsGet (jsGet (defaultBundle env) "plugins") "api"
      = .str "https://api.github.com" ∧
    jsGet (jsGet (defaultBundle env) "plugins") "token" = secretParse env.token ∧
    jsGet (jsGet (defaultBundle env) "plugins") "timezone" = .str env.timezone ∧
    jsGet (jsGet (defaultBundle env) "plugins") "handle" = .null ∧
    jsGet (jsGet (defaultBundle env) "plugins") "mock" = .bool false := by
  refine ⟨?_, rfl, rfl, rfl, rfl, rfl, rfl, rfl, rfl, rfl, rfl, rfl, rfl, rfl⟩
  simp only [configPreprocess] at h
  rw [exbind_ok] at h
  obtain ⟨plugins0, hA, h⟩ := h
  rw [exbind_ok] at h
  obtain ⟨presets0, hB, h⟩ := h
  rw [exbind_ok] at h
  obtain ⟨presets1, hC, h⟩ := h
  rw [exbind_ok] at h
  obtain ⟨plugins1, hD, h⟩ := h
  injection h with h
  subst h
  have hnodef : presets0.hasKey "default" = false := by
    cases hpf : fieldVal f "presets" with
    | none =>
        simp only [preparsedPresets, hpf] at hB
        injection hB with hB
        subst hB
        rfl
    | some v =>
        simp only [preparsedPresets, hpf] at hB
        cases v
        case obj pf =>
          simp only [lacksDefaultBundle, hpf] at hno
          have hp0 := recordOfRecordsParse_ok
            (show recordOfRecordsParse pf = .ok presets0 from hB)
          subst hp0
          simp [JFields.hasKey, hno]
        all_goals simp only [lacksDefaultBundle, hpf] at hno
  simp only [ensureDefault, hnodef, Bool.false_eq_true, if_false,
    presetParse_empty env h1 h2, exbind_ok] at hC
  obtain ⟨d, hd, hC⟩ := hC
  injection hd with hd
  subst hd
  injection hC with hC
  subst hC
  simp [jsGet, JFields.lookup, JFields.lookup_setKey]

/-- Witness for C3: the empty document, resolved in a sample environment,
receives the synthesized default bundle. -/
theorem default_bundle_synthesis_witness :
    jsGet (jsGet (extractOk (configPreprocess env0 (jobj []))) "presets") "default"
      = defaultBundle env0 :=
  (default_bundle_synthesis env0 .nil
    (extractOk (configPreprocess env0 (jobj []))) rfl rfl True.intro rfl).1

/-- C8: the secret schema always yields a Secret, returns an already-wrapped
Secret unchanged, and is therefore idempotent. -/
theorem secret_wrap_idempotent (v : JVal) :
    isSecretV (secretParse v) = true ∧
    (isSecretV v = true → secretParse v = v) ∧
    secretParse (secretParse v) = secretParse v := by
  refine ⟨?_, ?_, ?_⟩ <;> cases v <;> simp [secretParse, isSecretV]

/-- Witness for C8 at a concrete token string. -/
theorem secret_wrap_idempotent_witness :
    isSecretV (secretParse (.str "ghp")) = true ∧
    secretParse (.secret (.str "ghp")) = .secret (.str "ghp") ∧
    secretParse (secretParse (.str "ghp")) = secretParse (.str "ghp") :=
  ⟨(secret_wrap_idempotent (.str "ghp")).1,
   (secret_wrap_idempotent (.secret (.str "ghp"))).2.1 rfl,
   (secret_wrap_idempotent (.str "ghp")).2.2⟩

/-! ## C9: the restricted web-input boundary -/

/-- Observational equality of two optional values that relates arrays
pointwise by `R` and anything else by plain equality. -/
def optArrRel (R : JList → JList → Prop) : Option JVal → Option JVal → Prop
  | some (.arr xs), some (.arr ys) => R xs ys
  | o₁, o₂ => o₁ = o₂

theorem optArrRel_elim {R : JList → JList → Prop} {p₁ p₂ : Option JVal}
    (hp : optArrRel R p₁ p₂) :
    p₁ = p₂ ∨ ∃ xs ys, p₁ = some (.arr xs) ∧ p₂ = some (.arr ys) ∧ R xs ys := by
  cases p₁ with
  | none => exact .inl hp
  | some v =>
      cases v
      case arr xs =>
        cases p₂ with
        | none => exact .inl hp
        | some w =>
            cases w
            case arr ys => exact .inr ⟨xs, ys, rfl, rfl, hp⟩
            all_goals exact .inl hp
      all_goals exact .inl hp

/-- Observational equality of webrequest processor entries: equal on the
picked fields `id`, `fatal`, `args`; non-objects must be equal outright. -/
def wrProcObs : JVal → JVal → Prop
  | .obj a, .obj b =>
      a.lookup "id" = b.lookup "id" ∧ a.lookup "fatal" = b.lookup "fatal" ∧
      a.lookup "args" = b.lookup "args"
  | v, w => v = w

/-- Pointwise observational equality of processor arrays. -/
def wrProcsObs : JList → JList → Prop
  | .nil, .nil => True
  | .cons x xs, .cons y ys => wrProcObs x y ∧ wrProcsObs xs ys
  | _, _ => False

/-- Observational equality of webrequest plugin entries: equal on the picked
fields and observationally equal processor lists; `token`, `api`, `retries`
and `mock` (and any other unrecognized key) are not observed. -/
def wrPlugObs : JVal → JVal → Prop
  | .obj a, .obj b =>
      a.lookup "id" = b.lookup "id" ∧
      a.lookup "timezone" = b.lookup "timezone" ∧
      a.lookup "handle" = b.lookup "handle" ∧
      a.lookup "fatal" = b.lookup "fatal" ∧
      a.lookup "entity" = b.lookup "entity" ∧
      a.lookup "template" = b.lookup "template" ∧
      a.lookup "args" = b.lookup "args" ∧
      optArrRel wrProcsObs (a.lookup "processors") (b.lookup "processors")
  | v, w => v = w

/-- Pointwise observational equality of plugin arrays. -/
def wrPlugsObs : JList → JList → Prop
  | .nil, .nil => True
  | .cons x xs, .cons y ys => wrPlugObs x y ∧ wrPlugsObs xs ys
  | _, _ => False

/-- Observational equality of webrequest payloads: equal `mock` and
observationally equal plugin lists. -/
def wrTopObs : JVal → JVal → Prop
  | .obj a, .obj b =>
      a.lookup "mock" = b.lookup "mock" ∧
      optArrRel wrPlugsObs (a.lookup "plugins") (b.lookup "plugins")
  | v, w => v = w

theorem wrProcessorParse_congr {x y : JVal} (h : wrProcObs x y) :
    wrProcessorParse x = wrProcessorParse y := by
  cases x <;> cases y <;>
    first
      | exact congrArg wrProcessorParse h
      | · obtain ⟨h1, h2, h3⟩ := h
          show wrProcessorFields _ _ _ = wrProcessorFields _ _ _
          rw [h1, h2, h3]

theorem wrProcsList_congr {xs ys : JList} (h : wrProcsObs xs ys) :
    exceptMapJList wrProcessorParse xs = exceptMapJList wrProcessorParse ys := by
  induction xs using JList.jlistInduction generalizing ys with
  | nil =>
      cases ys with
      | nil => rfl
      | cons y ys => exact h.elim
  | cons x xs ih =>
      cases ys with
      | nil => exact h.elim
      | cons y ys =>
          obtain ⟨h1, h2⟩ := h
          simp only [exceptMapJList, wrProcessorParse_congr h1, ih h2]

theorem wrPluginFields_congr (env : Env)
    (i tz hd ft en tp ar : Option JVal) {p₁ p₂ : Option JVal}
    (hp : optArrRel wrProcsObs p₁ p₂) :
    wrPluginFields env i tz hd ft en tp ar p₁
      = wrPluginFields env i tz hd ft en tp ar p₂ := by
  rcases optArrRel_elim hp with he | ⟨xs, ys, hx, hy, hobs⟩
  · rw [he]
  · subst hx
    subst hy
    simp only [wrPluginFields, optUndef, wrProcsList_congr hobs]

theorem wrPluginParse_congr (env : Env) {x y : JVal} (h : wrPlugObs x y) :
    wrPluginParse env x = wrPluginParse env y := by
  cases x <;> cases y <;>
    first
      | exact congrArg (wrPluginParse env) h
      | · obtain ⟨h1, h2, h3, h4, h5, h6, h7, hp⟩ := h
          show wrPluginFields env _ _ _ _ _ _ _ _ = wrPluginFields env _ _ _ _ _ _ _ _
          rw [h1, h2, h3, h4, h5, h6, h7]
          exact wrPluginFields_congr env _ _ _ _ _ _ _ hp

theorem wrPlugsList_congr (env : Env) {xs ys : JList} (h : wrPlugsObs xs ys) :
    exceptMapJList (wrPluginParse env) xs = exceptMapJList (wrPluginParse env) ys := by
  induction xs using JList.jlistInduction generalizing ys with
  | nil =>
      cases ys with
      | nil => rfl
      | cons y ys => exact h.elim
  | cons x xs ih =>
      cases ys with
      | nil => exact h.elim
      | cons y ys =>
          obtain ⟨h1, h2⟩ := h
          simp only [exceptMapJList, wrPluginParse_congr env h1, ih h2]

/-- Whether a parsed webrequest plugin entry carries none of the excluded
fields. -/
def wrStrippedPlugin : JVal → Bool
  | .obj f =>
      !f.hasKey "token" && !f.hasKey "api" && !f.hasKey "retries" &&
        !f.hasKey "mock"
  | _ => false

/-- Whether every plugin entry of a parsed webrequest payload is stripped. -/
def wrStrippedOut (cfg : JVal) : Bool :=
  match jsGet cfg "plugins" with
  | .arr xs => jlistAll wrStrippedPlugin xs
  | _ => false

theorem lookup_consOpt_ne {k k' : String} (o : Option JVal) (rest : JFields)
    (h : ¬(k' = k)) : (consOpt k' o rest).lookup k = rest.lookup k := by
  cases o <;> simp [consOpt, JFields.lookup, h]

theorem exceptMapJList_all {p : JVal → Except String JVal} {q : JVal → Bool}
    (hq : ∀ x y, p x = .ok y → q y = true) :
    ∀ {xs ys : JList}, exceptMapJList p xs = .ok ys → jlistAll q ys = true := by
  intro xs
  induction xs using JList.jlistInduction with
  | nil =>
      intro ys h
      simp only [exceptMapJList] at h
      injection h with h
      subst h
      rfl
  | cons x xs ih =>
      intro ys h
      simp only [exceptMapJList, exbind_ok] at h
      obtain ⟨y, hy, z, hz, h⟩ := h
      injection h with h
      subst h
      simp [jlistAll, hq x y hy, ih hz]

theorem wrPluginParse_stripped (env : Env) {x y : JVal}
    (h : wrPluginParse env x = .ok y) : wrStrippedPlugin y = true := by
  cases x
  case obj a =>
    have h2 : wrPluginFields env (a.lookup "id") (a.lookup "timezone")
        (a.lookup "handle") (a.lookup "fatal") (a.lookup "entity")
        (a.lookup "template") (a.lookup "args") (a.lookup "processors")
        = .ok y := h
    simp only [wrPluginFields, exbind_ok] at h2
    obtain ⟨i, _, tz, _, hd, _, ft, _, en, _, tp, _, ar, _, h2⟩ := h2
    cases hps : optUndef (JFields.lookup "processors" a) with
    | none =>
        rw [hps] at h2
        simp only [exbind_ok] at h2
        obtain ⟨ps, hps2, h2⟩ := h2
        injection h2 with h2
        subst h2
        simp [wrStrippedPlugin, JFields.hasKey, lookup_consOpt_ne, JFields.lookup]
    | some pv =>
        rw [hps] at h2
        cases pv
        case arr xs =>
          simp only [exbind_ok] at h2
          obtain ⟨ps, hps2, h2⟩ := h2
          injection h2 with h2
          subst h2
          simp [wrStrippedPlugin, JFields.hasKey, lookup_consOpt_ne, JFields.lookup]
        all_goals simp only [exbind_ok] at h2
        all_goals obtain ⟨ps, hps2, h2⟩ := h2
        all_goals exact absurd hps2 (by simp)
  all_goals exact absurd h (by simp [wrPluginParse])

set_option maxHeartbeats 1000000 in
/-- C9: the restricted web-input schema never lets `token`, `api`, `retries`
or plugin-level `mock` through: two payloads that agree on everything the
schema picks (and may differ arbitrarily in those excluded fields, or in
processor-level fields beyond `id`/`fatal`/`args`) parse to equal outputs,
and every successfully parsed plugin entry carries none of the excluded
keys. -/
theorem webrequest_boundary (env : Env) (v w : JVal) (h : wrTopObs v w) :
    webrequestParse env v = webrequestParse env w ∧
    (∀ cfg, webrequestParse env v = .ok cfg → wrStrippedOut cfg = true) := by
  constructor
  · cases v <;> cases w
    case obj.obj a b =>
      obtain ⟨hm, hp⟩ := h
      have hm2 : wrMockParse a = wrMockParse b := by
        simp only [wrMockParse, fieldVal, hm]
      have hp2 : wrPluginsParse env a = wrPluginsParse env b := by
        rcases optArrRel_elim hp with he | ⟨xs, ys, hx, hy, hobs⟩
        · simp only [wrPluginsParse, fieldVal, he]
        · simp only [wrPluginsParse, fieldVal, hx, hy, wrPlugsList_congr env hobs]
      simp only [webrequestParse, hm2, hp2]
    all_goals exact congrArg (webrequestParse env) h
  · intro cfg hcfg
    cases v
    case obj a =>
      simp only [webrequestParse, exbind_ok] at hcfg
      obtain ⟨m, _, p, hp, hcfg⟩ := hcfg
      injection hcfg with hcfg
      subst hcfg
      cases hpl : fieldVal a "plugins" with
      | none =>
          simp only [wrPluginsParse, hpl] at hp
          injection hp with hp
          subst hp
          rfl
      | some pv =>
          cases pv
          case arr xs =>
            simp only [wrPluginsParse, hpl, exmap_ok] at hp
            obtain ⟨ys, hys, hval⟩ := hp
            subst hval
            have hall := exceptMapJList_all
              (fun x y hxy => wrPluginParse_stripped env hxy) hys
            simp [wrStrippedOut, jsGet, jobj, JFields.ofList, JFields.lookup, hall]
          all_goals simp only [wrPluginsParse, hpl] at hp
          all_goals exact absurd hp (by simp)
    all_goals exact absurd hcfg (by simp [webrequestParse])

/-- A web payload with externally-supplied `token` and `retries`. -/
def c9payloadA : JVal :=
  jobj [("plugins", jarr [jobj [("id", .str "x"), ("token", .str "EVIL"),
    ("retries", jobj [("attempts", .num 9)])]])]

/-- A web payload differing from the first only in the excluded fields. -/
def c9payloadB : JVal :=
  jobj [("plugins", jarr [jobj [("id", .str "x"),
    ("api", .str "https://evil.example"), ("mock", .bool true)]])]

/-- Witness for C9: the two payloads differing only in `token`, `api`,
`retries` and `mock` parse to equal, stripped outputs. -/
theorem webrequest_boundary_witness :
    webrequestParse env0 c9payloadA = webrequestParse env0 c9payloadB ∧
    wrStrippedOut (extractOk (webrequestParse env0 c9payloadA)) = true := by
  have hobs : wrTopObs c9payloadA c9payloadB :=
    ⟨rfl, ⟨⟨rfl, rfl, rfl, rfl, rfl, rfl, rfl, rfl⟩, trivial⟩⟩
  exact ⟨(webrequest_boundary env0 c9payloadA c9payloadB hobs).1,
    (webrequest_boundary env0 c9payloadA c9payloadB hobs).2
      (extractOk (webrequestParse env0 c9payloadA)) rfl⟩


/-! ## C5: the transient preset key is dropped -/

/-- Whether a resolved processor record carries no `preset` key. -/
def procPresetFree : JVal → Bool
  | .obj pf => !pf.hasKey "preset"
  | _ => false

/-- Whether a resolved plugin record carries no `preset` key, nor any of its
processors. -/
def presetFreePlugin : JVal → Bool
  | .obj f =>
      !f.hasKey "preset" &&
      (match f.lookup "processors" with
       | some (.arr xs) => jlistAll procPresetFree xs
       | _ => false)
  | _ => false

/-- Whether every plugin entry of a validated Config is preset-free. -/
def pluginsPresetFree (cfg : JVal) : Bool :=
  match jsGet cfg "plugins" with
  | .arr xs => jlistAll presetFreePlugin xs
  | _ => false

theorem processorParse_presetFree {x y : JVal} (h : processorParse x = .ok y) :
    procPresetFree y = true := by
  cases hs : sugar x processorKeys
  case obj f =>
    simp only [processorParse, hs, exbind_ok] at h
    obtain ⟨core, hcore, h⟩ := h
    simp only [componentStrictParse] at h
    split at h
    · exact absurd h (by simp [Bind.bind, Except.bind])
    · simp only [exbind_ok] at h
      obtain ⟨logs, _, id2, _, args, _, retries, _, fatal, _, h⟩ := h
      injection h with h
      subst h
      simp [procPresetFree, JFields.hasKey, jobj, JFields.ofList, JFields.lookup]
  all_goals simp [processorParse, hs] at h

theorem pluginStripParse_presetFree (env : Env) {x y : JVal}
    (h : pluginStripParse env x = .ok y) : presetFreePlugin y = true := by
  cases x
  case obj f =>
    simp only [pluginStripParse, exbind_ok] at h
    obtain ⟨logs, _, id2, _, args, _, retries, _, fatal, _, mock, _, api, _,
      tz, _, hd, _, en, _, tp, _, h⟩ := h
    cases hpr : fieldVal f "processors" with
    | none =>
        rw [hpr] at h
        exact absurd h (by simp [Bind.bind, Except.bind])
    | some pv =>
        rw [hpr] at h
        cases pv
        case arr xs =>
          simp only [exbind_ok, exmap_ok] at h
          obtain ⟨ps, ⟨ys, hys, hval⟩, h⟩ := h
          subst hval
          injection h with h
          subst h
          have hall := exceptMapJList_all
            (fun a b hab => processorParse_presetFree hab) hys
          simp [presetFreePlugin, JFields.hasKey, jobj, JFields.ofList,
            JFields.lookup, hall]
        all_goals exact absurd h (by simp [Bind.bind, Except.bind])
  all_goals exact absurd h (by simp [pluginStripParse])

theorem pluginNopStrictParse_presetFree (env : Env) {x y : JVal}
    (h : pluginNopStrictParse env x = .ok y) : presetFreePlugin y = true := by
  cases x
  case obj f =>
    simp only [pluginNopStrictParse] at h
    split at h
    · exact absurd h (by simp [Bind.bind, Except.bind])
    · simp only [exbind_ok] at h
      obtain ⟨logs, _, fatal, _, mock, _, api, _, tz, _, hd, _, en, _, h⟩ := h
      cases hpr : fieldVal f "processors" with
      | none =>
          rw [hpr] at h
          exact absurd h (by simp [Bind.bind, Except.bind])
      | some pv =>
          rw [hpr] at h
          cases pv
          case arr xs =>
            simp only [exbind_ok, exmap_ok] at h
            obtain ⟨ps, ⟨ys, hys, hval⟩, h⟩ := h
            subst hval
            injection h with h
            subst h
            have hall := exceptMapJList_all
              (fun a b hab => processorParse_presetFree hab) hys
            simp [presetFreePlugin, JFields.hasKey, jobj, JFields.ofList,
              JFields.lookup, hall]
          all_goals exact absurd h (by simp [Bind.bind, Except.bind])
  all_goals exact absurd h (by simp [pluginNopStrictParse])

theorem pluginUnionParse_presetFree (env : Env) {x y : JVal}
    (h : pluginUnionParse env x = .ok y) : presetFreePlugin y = true := by
  simp only [pluginUnionParse] at h
  cases hp : pluginParse env x with
  | ok r =>
      rw [hp] at h
      injection h with h
      subst h
      exact pluginStripParse_presetFree env
        (show pluginStripParse env (pluginPre env x) = .ok r from hp)
  | error e =>
      rw [hp] at h
      exact pluginNopStrictParse_presetFree env
        (show pluginNopStrictParse env (pluginNopPre env x) = .ok y from h)

/-- A document whose only plugin declaration carries a preset reference. -/
def c5doc : JVal :=
  jobj [("plugins", jarr [jobj [("id", .str "x"), ("preset", .str "ci")]])]

set_option maxHeartbeats 2000000 in
/-- C5: the transient `preset` key is resolution metadata only: in every
successfully validated Config, no resolved plugin record and no resolved
processor record contains a `preset` field, while a declaration that carries
a preset reference (as in the example document) still validates. -/
theorem preset_key_dropped (env : Env) (v cfg : JVal)
    (h : configParse env v = .ok cfg) :
    pluginsPresetFree cfg = true ∧ isOkE (configParse env0 c5doc) = true := by
  refine ⟨?_, rfl⟩
  simp only [configParse, exbind_ok] at h
  obtain ⟨pre, hpre, h⟩ := h
  cases pre
  case obj pf =>
    cases hpl : fieldVal pf "plugins" with
    | none =>
        simp only [configStrictParse, hpl] at h
        exact absurd h (by simp [Bind.bind, Except.bind])
    | some pv =>
        cases pv
        case arr xs =>
          simp only [configStrictParse, hpl, exbind_ok, exmap_ok] at h
          obtain ⟨plugins, ⟨ys, hys, hval⟩, h⟩ := h
          subst hval
          cases hps : fieldVal pf "presets" with
          | none =>
              rw [hps] at h
              exact absurd h (by simp [Bind.bind, Except.bind])
          | some qv =>
              rw [hps] at h
              cases qv
              case obj qf =>
                simp only [exbind_ok, exmap_ok] at h
                obtain ⟨ps, ⟨rs, hrs, hval⟩, h⟩ := h
                subst hval
                injection h with h
                subst h
                have hall := exceptMapJList_all
                  (fun a b hab => pluginUnionParse_presetFree env hab) hys
                simp [pluginsPresetFree, jsGet, jobj, JFields.ofList,
                  JFields.lookup, hall]
              all_goals exact absurd h (by simp [Bind.bind, Except.bind])
        all_goals simp only [configStrictParse, hpl] at h
        all_goals exact absurd h (by simp [Bind.bind, Except.bind])
  all_goals simp [configStrictParse] at h

/-- Witness for C5: the example document with a preset reference validates,
and its validated output is preset-free. -/
theorem preset_key_dropped_witness :
    isOkE (configParse env0 c5doc) = true ∧
    pluginsPresetFree (extractOk (configParse env0 c5doc)) = true :=
  ⟨(preset_key_dropped env0 c5doc (extractOk (configParse env0 c5doc)) rfl).2,
   (preset_key_dropped env0 c5doc (extractOk (configParse env0 c5doc)) rfl).1⟩

end Metrics
